import Mathlib

/-!
Verification of the audio-to-chord-chart pipeline of `lyrics-chord-detector`.

The development shallowly embeds the algorithmic core of the repository:

* `analyzeChords` (client-side chord recognizer, `src/unnamed/part_014`):
  chord-template matching over averaged, peak-normalized chroma windows with
  a confidence threshold and suppression of repeated adjacent chords.
* `SongUtils.transformSongData` (`src/frontend/src/lib/songUtils.js`) and
  `Part007.transformSongData` (`src/unnamed/part_007`): alignment of chord
  events onto transcript segments/words and grouping into sections.
* `useAdaptedData` (`src/unnamed/part_009`, identical in `part_010`): the
  display adapter computing character offsets for chords above a lyric line.

JavaScript `number` arithmetic is modelled over `ℝ` where the code computes
with `Math.sqrt` (chroma scores), and over `ℚ` where the code only compares
and copies timestamps (alignment/formatting).  Strings are Lean `String`s.
-/

/-! ### Chord templates (`src/unnamed/part_014`, lines 113-132)

The template table is a JS object literal; `Object.entries` enumerates its
keys in insertion order, so we model it as an ordered list.  All entries are
the integer literals 0/1 from the source. -/

def chordTemplates : List (String × List ℕ) :=
  [ ("C",  [1, 0, 0, 0, 1, 0, 0, 1, 0, 0, 0, 0]),
    ("C#", [0, 1, 0, 0, 0, 1, 0, 0, 1, 0, 0, 0]),
    ("D",  [0, 0, 1, 0, 0, 0, 1, 0, 0, 1, 0, 0]),
    ("D#", [0, 0, 0, 1, 0, 0, 0, 1, 0, 0, 1, 0]),
    ("E",  [0, 0, 0, 0, 1, 0, 0, 0, 1, 0, 0, 1]),
    ("F",  [1, 0, 0, 0, 0, 1, 0, 0, 0, 1, 0, 0]),
    ("F#", [0, 1, 0, 0, 0, 0, 1, 0, 0, 0, 1, 0]),
    ("G",  [0, 0, 1, 0, 0, 0, 0, 1, 0, 0, 0, 1]),
    ("G#", [1, 0, 0, 1, 0, 0, 0, 0, 1, 0, 0, 0]),
    ("A",  [0, 1, 0, 0, 1, 0, 0, 0, 0, 1, 0, 0]),
    ("A#", [0, 0, 1, 0, 0, 1, 0, 0, 0, 0, 1, 0]),
    ("B",  [0, 0, 0, 1, 0, 0, 1, 0, 0, 0, 0, 1]),
    ("Cm", [1, 0, 0, 1, 0, 0, 0, 1, 0, 0, 0, 0]),
    ("Dm", [0, 0, 1, 0, 0, 1, 0, 0, 1, 0, 0, 0]),
    ("Em", [0, 0, 0, 0, 1, 0, 0, 1, 0, 0, 0, 1]),
    ("Fm", [1, 0, 0, 0, 0, 1, 0, 0, 1, 0, 0, 0]),
    ("Gm", [0, 0, 1, 0, 0, 0, 0, 1, 0, 0, 1, 0]),
    ("Am", [0, 1, 0, 0, 1, 0, 0, 0, 1, 0, 0, 0]) ]

/-- Integer dot product of two pitch-class vectors (decidable mirror of the
`dotProduct` accumulation in the source's cosine-similarity loop). -/
def dotN (a b : List ℕ) : ℕ := (List.zipWith (· * ·) a b).sum

/-! ### Real-valued chroma arithmetic (`analyzeChords`, lines 107-214)

`Math.sqrt` forces the score arithmetic into `ℝ`; the integer templates are
cast pointwise. -/

def castVec (l : List ℕ) : List ℝ := l.map (fun n => (n : ℝ))

/-- The template table as consumed by the matching loop. -/
def chordTemplatesR : List (String × List ℝ) :=
  chordTemplates.map (fun p => (p.1, castVec p.2))

/-- `dotProduct += avgChroma[k] * template[k]` over the 12 bins. -/
def dotProd (a b : List ℝ) : ℝ := (List.zipWith (· * ·) a b).sum

/-- The `1e-10` guard added to the denominator of the similarity score. -/
noncomputable def eps : ℝ := 1 / 10 ^ 10

/-- Cosine-similarity score of the source:
`dotProduct / (Math.sqrt(normA) * Math.sqrt(normB) + 1e-10)` where
`normA`/`normB` accumulate the squared entries. -/
noncomputable def score (avg tpl : List ℝ) : ℝ :=
  dotProd avg tpl /
    (Real.sqrt (dotProd avg avg) * Real.sqrt (dotProd tpl tpl) + eps)

/-- The `for (const [chordName, template] of Object.entries(chordTemplates))`
loop: starting from `bestChord = null`, `bestScore = 0`, update whenever
`score > bestScore` (strict, so the earliest maximum is kept). -/
noncomputable def bestAux (avg : List ℝ) :
    Option String × ℝ → List (String × List ℝ) → Option String × ℝ
  | acc, [] => acc
  | acc, p :: rest =>
      bestAux avg
        (if acc.2 < score avg p.2 then (some p.1, score avg p.2) else acc) rest

/-- Best-matching template of an averaged, normalized chroma vector
(lines 172-194 of `part_014`). -/
noncomputable def bestMatch (avg : List ℝ) : Option String × ℝ :=
  bestAux avg (none, 0) chordTemplatesR

/-- `Math.max(...avgChroma)` over the (never empty) 12-entry average. -/
noncomputable def maxEntry : List ℝ → ℝ
  | [] => 0
  | x :: xs => xs.foldl max x

/-- `chroma.forEach((val, idx) => { avgChroma[idx] += val })`: pointwise sum
into the 12-slot accumulator, keeping accumulator entries past the end of
`chroma` (Meyda chroma vectors have exactly 12 bins, so in every reachable
call both lists have length 12 and this is plain pointwise addition). -/
def addVec (acc chroma : List ℝ) : List ℝ :=
  List.zipWith (· + ·) acc chroma ++ acc.drop chroma.length

/-- Summation of the window's chroma frames into `new Array(12).fill(0)`. -/
def sumVecs (cs : List (List ℝ)) : List ℝ :=
  cs.foldl addVec (List.replicate 12 0)

/-- `avgChroma[idx] /= chromaFeatures.length`. -/
noncomputable def divVec (v : List ℝ) (n : ℕ) : List ℝ :=
  v.map (fun x => x / (n : ℝ))

/-- Peak normalization (lines 164-170): divide by the maximum bin when it is
positive, otherwise leave the vector unchanged. -/
noncomputable def normalizeVec (v : List ℝ) : List ℝ :=
  let m := maxEntry v
  if 0 < m then v.map (fun x => x / m) else v

/-- Start indices of a JS `for (let i = 0; i + bound < len; i += step)` loop
(the source writes the bound as `i < len - bound` with JS subtraction, which
over the integers is `i + bound < len`).  `fuel` is structural-recursion
fuel; `fuel = len` covers every iteration whenever `step ≥ 1`, and the
`step = 0` case — on which the JS loop would never terminate — is cut off
once the fuel runs out. -/
def loopStarts (fuel len bound step i : ℕ) : List ℕ :=
  match fuel with
  | 0 => []
  | f + 1 => if i + bound < len then i :: loopStarts f len bound step (i + step) else []

/-- `frameSize = 4096` (line 110). -/
def frameSize : ℕ := 4096

/-- `hopSize = 2048` (line 109). -/
def hopSize : ℕ := 2048

/-- Per-window feature extraction and averaging (lines 140-170): collect the
chroma of each full frame inside the 2-second segment (`extract` stands for
the external `Meyda.extract('chroma', frame)`, which may return a falsy
result that is skipped), then — when at least one frame produced features —
average and peak-normalize.  Returns `none` when `chromaFeatures` is empty,
in which case the source emits nothing for the window. -/
noncomputable def windowAvg (extract : List ℝ → Option (List ℝ))
    (segment : List ℝ) : Option (List ℝ) :=
  let chromas := (loopStarts segment.length segment.length frameSize hopSize 0).filterMap
    (fun j => extract ((segment.drop j).take frameSize))
  if chromas.length = 0 then none
  else some (normalizeVec (divVec (sumVecs chromas) chromas.length))

/-- `{chord, time, confidence}` as pushed by `analyzeChords`. -/
structure ChordEvent where
  chord : String
  time : ℝ
  confidence : ℝ

/-- JS `Math.round`: round half towards positive infinity. -/
noncomputable def jround (x : ℝ) : ℝ := ((⌊x + 1 / 2⌋ : ℤ) : ℝ)

/-- Lines 196-209: append a chord event when the best score clears the 0.4
threshold, a best chord exists (`bestChord` is non-null — all table keys are
non-empty, hence truthy), and the previous accepted chord differs. -/
noncomputable def pushChord (chords : List ChordEvent)
    (best : Option String × ℝ) (time : ℝ) : List ChordEvent :=
  match best.1 with
  | none => chords
  | some name =>
      if 0.4 < best.2 then
        let ev : ChordEvent :=
          { chord := name, time := jround (time * 10) / 10,
            confidence := jround (best.2 * 100) / 100 }
        match chords.getLast? with
        | none => chords ++ [ev]
        | some lastChord => if lastChord.chord ≠ name then chords ++ [ev] else chords
      else chords

/-- The chord recognizer `analyzeChords(audioData, sampleRate)` of
`src/unnamed/part_014` (lines 107-214).  `segmentLength` is
`Math.floor(sampleRate * 2)`, i.e. `2 * sampleRate` for the integral sample
rates delivered by `AudioContext`.  `time = i / sampleRate`. -/
noncomputable def analyzeChords (extract : List ℝ → Option (List ℝ))
    (audioData : List ℝ) (sampleRate : ℕ) : List ChordEvent :=
  let segmentLength := 2 * sampleRate
  (loopStarts audioData.length audioData.length segmentLength segmentLength 0).foldl
    (fun chords i =>
      match windowAvg extract ((audioData.drop i).take segmentLength) with
      | none => chords
      | some avg => pushChord chords (bestMatch avg) ((i : ℝ) / (sampleRate : ℝ)))
    []

/-! ### Alignment / formatting data model

`transformSongData` only compares and copies timestamps, so its times are
modelled in `ℚ` (JS numbers are binary rationals).  The JS field `end` is a
Lean keyword and is rendered as `stop`; the JS field `structure` is rendered
as `structure'`. -/

/-- An element of `backendData.aligned_chords`: `{ chord, time }` (the
untransformed fields read by the live code paths). -/
structure AlignedChord where
  chord : String
  time : ℚ
deriving DecidableEq

/-- A word with timestamps inside `segment.words`. -/
structure TWord where
  word : String
  start : ℚ
  stop : ℚ
deriving DecidableEq

/-- A transcript segment `{ text, start, end, words }`; `words = none` models
a `null`/omitted word array. -/
structure TSegment where
  text : String
  start : ℚ
  stop : ℚ
  words : Option (List TWord)
deriving DecidableEq

/-- An element of `backendData.structure`. -/
structure BSection where
  label : Option String
  type : Option String
  start : ℚ
  stop : ℚ
deriving DecidableEq

/-- The backend response consumed by `transformSongData`; `structure' = none`
models a missing `structure` field (the only falsiness the function checks —
`segments`/`aligned_chords` are read unconditionally). -/
structure BackendData where
  structure' : Option (List BSection)
  segments : List TSegment
  aligned_chords : List AlignedChord
deriving DecidableEq

/-- A section of the transformed output. -/
structure SectionOut where
  id : String
  name : String
  start : ℚ
  stop : ℚ
  type : Option String
deriving DecidableEq

/-- A line of the target format: `{ chords, words }` arrays. -/
structure Line where
  chords : List String
  words : List String
deriving DecidableEq

/-- The transformed result `{ sections, lyrics }`; the `lyrics` JS object is
keyed by `section.id` in insertion order, modelled as an association list. -/
structure TransformResult where
  sections : List SectionOut
  lyrics : List (String × List Line)
deriving DecidableEq

/-- JS `a || b` for an optional string `a` (`null`, `undefined` and `""` are
falsy; any other string is truthy). -/
def jsOr (a : Option String) (b : String) : String :=
  match a with
  | some s => if s = "" then b else s
  | none => b

/-- JS `s.split(/\s+/)` applied to an already-trimmed string: the empty
string yields `[""]`, otherwise the whitespace-separated tokens. -/
def jsSplitWs (s : String) : List String :=
  if s = "" then [""]
  else (s.split (fun c => c.isWhitespace)).filter (fun t => t ≠ "")

/-- `aligned_chords` whose time falls in `[a, b)` (the filters of both
`transformSongData` variants). -/
def chordsBetween (cs : List AlignedChord) (a b : ℚ) : List AlignedChord :=
  cs.filter (fun c => a ≤ c.time ∧ c.time < b)

namespace SongUtils

/-- Per-segment line construction of `src/frontend/src/lib/songUtils.js`
(lines 53-125).  The first `words.forEach` loop (lines 60-83) computes a
`find` whose result is discarded, but it *does* push every word text into
`lineWords`, so the emitted `words` array contains each word twice: once
from that loop and once from the chord-aligning pass (lines 103-119). -/
def segLine (alignedChords : List AlignedChord) (segment : TSegment) : Line :=
  let words0 : List String :=
    match segment.words with
    | some ws => ws.map (fun w => w.word)
    | none => jsSplitWs segment.text.trim
  let chordsInSeg := chordsBetween alignedChords segment.start segment.stop
  match segment.words with
  | some ws =>
      if ws.length > 0 then
        { chords := ws.map (fun w =>
            match chordsInSeg.find? (fun c => w.start ≤ c.time ∧ c.time < w.stop) with
            | some c => c.chord
            | none => ""),
          words := words0 ++ ws.map (fun w => w.word) }
      else
        { chords := [if chordsInSeg.length > 0 then
            String.intercalate " " (chordsInSeg.map (fun c => c.chord)) else ""],
          words := words0 ++ [segment.text.trim] }
  | none =>
      { chords := [if chordsInSeg.length > 0 then
          String.intercalate " " (chordsInSeg.map (fun c => c.chord)) else ""],
        words := words0 ++ [segment.text.trim] }

/-- Lines 27-129 of `songUtils.js`, for one output section: segments
overlapping the section each become a line; a segment-free section becomes a
single instrumental line when it contains chords, and no line otherwise. -/
def sectionLines (bd : BackendData) (sec : SectionOut) : List Line :=
  let sectionSegments := bd.segments.filter (fun seg =>
    (seg.start ≥ sec.start ∧ seg.start < sec.stop) ∨
    (seg.stop > sec.start ∧ seg.stop ≤ sec.stop))
  if sectionSegments.length = 0 then
    let sectionChords := chordsBetween bd.aligned_chords sec.start sec.stop
    if sectionChords.length > 0 then
      [{ chords := sectionChords.map (fun c => c.chord),
         words := sectionChords.map (fun _ => "") }]
    else []
  else sectionSegments.map (segLine bd.aligned_chords)

/-- `transformSongData(backendData)` of `src/frontend/src/lib/songUtils.js`:
returns `null` when `backendData` or `backendData.structure` is falsy. -/
def transformSongData (backendData : Option BackendData) : Option TransformResult :=
  match backendData with
  | none => none
  | some bd =>
      match bd.structure' with
      | none => none
      | some structure' =>
          let sections := structure'.mapIdx (fun index sec =>
            { id := "section-" ++ toString index,
              name := jsOr sec.label (jsOr sec.type ("Section " ++ toString (index + 1))),
              start := sec.start, stop := sec.stop,
              type := sec.type : SectionOut })
          some { sections := sections,
                 lyrics := sections.map (fun sec => (sec.id, sectionLines bd sec)) }

end SongUtils

namespace Part007

/-- Per-segment line construction of the `transformSongData` variant in
`src/unnamed/part_007` (lines 526-567): no duplicated word pass; the
no-word-timestamps fallback splits the text into tokens and puts the joined
chord text on the first token (lines 548-561). -/
def segLine (alignedChords : List AlignedChord) (segment : TSegment) : Line :=
  let chordsInSeg := chordsBetween alignedChords segment.start segment.stop
  let chordsText := if chordsInSeg.length > 0 then
    String.intercalate " " (chordsInSeg.map (fun c => c.chord)) else ""
  let fallback : Line :=
    let tokens := (jsSplitWs segment.text.trim).filter (fun w => w ≠ "")
    if tokens.length = 0 then
      { chords := [chordsText], words := [segment.text.trim] }
    else
      { chords := tokens.mapIdx (fun i _ => if i = 0 then chordsText else ""),
        words := tokens }
  match segment.words with
  | some ws =>
      if ws.length > 0 then
        { chords := ws.map (fun w =>
            match chordsInSeg.find? (fun c => w.start ≤ c.time ∧ c.time < w.stop) with
            | some c => c.chord
            | none => ""),
          words := ws.map (fun w => w.word) }
      else fallback
  | none => fallback

/-- Section processing of `part_007` (identical to the `songUtils.js`
variant apart from `segLine`). -/
def sectionLines (bd : BackendData) (sec : SectionOut) : List Line :=
  let sectionSegments := bd.segments.filter (fun seg =>
    (seg.start ≥ sec.start ∧ seg.start < sec.stop) ∨
    (seg.stop > sec.start ∧ seg.stop ≤ sec.stop))
  if sectionSegments.length = 0 then
    let sectionChords := chordsBetween bd.aligned_chords sec.start sec.stop
    if sectionChords.length > 0 then
      [{ chords := sectionChords.map (fun c => c.chord),
         words := sectionChords.map (fun _ => "") }]
    else []
  else sectionSegments.map (segLine bd.aligned_chords)

/-- `transformSongData(backendData)` of `src/unnamed/part_007`
(lines 487-574). -/
def transformSongData (backendData : Option BackendData) : Option TransformResult :=
  match backendData with
  | none => none
  | some bd =>
      match bd.structure' with
      | none => none
      | some structure' =>
          let sections := structure'.mapIdx (fun index sec =>
            { id := "section-" ++ toString index,
              name := jsOr sec.label (jsOr sec.type ("Section " ++ toString (index + 1))),
              start := sec.start, stop := sec.stop,
              type := sec.type : SectionOut })
          some { sections := sections,
                 lyrics := sections.map (fun sec => (sec.id, sectionLines bd sec)) }

end Part007

/-! ### The display adapter `useAdaptedData`
(`src/unnamed/part_009` lines 6-51, byte-identical logic in `part_010`). -/

/-- A line in the component's expected format. -/
structure AdaptedLine where
  lyrics : String
  chords : List String
  positions : List ℕ
deriving DecidableEq

/-- `{ section: section.name, lines }`; the JS field `section` is a Lean
keyword and is rendered as `section'`. -/
structure AdaptedSection where
  section' : String
  lines : List AdaptedLine
deriving DecidableEq

/-- The `line.words.forEach((word, idx) => ...)` loop of `useAdaptedData`:
`startPos` is the current text length, `chord = line.chords[idx]` (an
out-of-range access is `undefined`, falsy like `""`), a truthy chord pushes
both the chord and its position, and `currentText += word + " "`. -/
def adaptGo (chords : List String) :
    ℕ → String → List String → List ℕ → List String →
      String × List String × List ℕ
  | _, cur, cs, ps, [] => (cur, cs, ps)
  | idx, cur, cs, ps, w :: ws =>
      if chords.getD idx "" ≠ "" then
        adaptGo chords (idx + 1) (cur ++ w ++ " ") (cs ++ [chords.getD idx ""])
          (ps ++ [cur.length]) ws
      else
        adaptGo chords (idx + 1) (cur ++ w ++ " ") cs ps ws

/-- One line of the adapter: run the loop and trim the accumulated text. -/
def adaptLine (line : Line) : AdaptedLine :=
  let r := adaptGo line.chords 0 "" [] [] line.words
  { lyrics := r.1.trim, chords := r.2.1, positions := r.2.2 }

/-- `useAdaptedData(songData)`: `[]` for falsy input, else one adapted
section per input section, with `songData.lyrics[sectionId] || []` as the
raw lines (object lookup on the id-keyed association list). -/
def useAdaptedData (songData : Option TransformResult) : List AdaptedSection :=
  match songData with
  | none => []
  | some sd =>
      sd.sections.map (fun sec =>
        let rawLines := ((sd.lyrics.find? (fun pr => pr.1 = sec.id)).map
          (fun pr => pr.2)).getD []
        { section' := sec.name, lines := rawLines.map adaptLine })

/-- Character offset of the `i`-th word when each preceding word is rendered
followed by one space. -/
def wordStart (ws : List String) (i : ℕ) : ℕ :=
  ((ws.take i).map (fun w => w.length + 1)).sum

/-- Indices of words that carry a truthy chord entry. -/
def chordedIdx (line : Line) : List ℕ :=
  (List.range line.words.length).filter (fun i => line.chords.getD i "" ≠ "")

/-! ### Concrete evaluation inputs

A 4099-sample silent clip at a 2049 Hz sample rate gives exactly one
2-second analysis window (`segmentLength = 4098`) containing exactly one
full 4096-sample frame, so a constant extractor determines the window's
chroma average completely. -/

/-- The C-major template row. -/
def tplC : List ℕ := [1, 0, 0, 0, 1, 0, 0, 1, 0, 0, 0, 0]

/-- 4099 zero samples. -/
def audioC : List ℝ := List.replicate 4099 0

/-- An extractor (stand-in for Meyda) that always reports a pure C-major
chroma. -/
def extractC : List ℝ → Option (List ℝ) := fun _ => some (castVec tplC)

/-- The all-zero 12-bin chroma vector. -/
def zeroVec : List ℝ := List.replicate 12 0

/-- An extractor that always reports silence. -/
def extractZero : List ℝ → Option (List ℝ) := fun _ => some zeroVec

/-- A backend response with song structure and transcript but no detected
chords. -/
def bdEmpty : BackendData :=
  { structure' := some [{ label := none, type := some "verse", start := 0, stop := 10 }],
    segments := [{ text := "hello world", start := 0, stop := 10, words := none }],
    aligned_chords := [] }

/-- The input falsifying the spec's gap-fallback clause: the chord `C` at
time 1 lies in the section's segment but inside no word interval; the word
`"hello"` spans `[2, 3)`, so its start is ≥ the onset and the spec's
"nearest following word in the same section" rule would attach `C` to it. -/
def cexBD : BackendData :=
  { structure' := some [{ label := none, type := some "verse", start := 0, stop := 10 }],
    segments := [{ text := "hello", start := 0, stop := 10,
                   words := some [{ word := "hello", start := 2, stop := 3 }] }],
    aligned_chords := [{ chord := "C", time := 1 }] }

/-- The output `transformSongData` actually computes on `cexBD`. -/
def cexOut : TransformResult :=
  { sections := [{ id := "section-0", name := "verse",
                   start := 0, stop := 10, type := some "verse" }],
    lyrics := [("section-0", [{ chords := [""], words := ["hello", "hello"] }])] }

/-- A chord symbol occurs somewhere in the transformed output. -/
def chordAppears (out : TransformResult) (c : String) : Prop :=
  ∃ pr ∈ out.lyrics, ∃ line ∈ pr.2, c ∈ line.chords

/-- Chords used by the amended-C2 witness. -/
def acW : List AlignedChord := [{ chord := "C", time := 2 }]

/-- Segment used by the amended-C2 witness: one word `"hello"` on `[2, 3)`
containing the chord onset `2`. -/
def segW : TSegment :=
  { text := "hello", start := 0, stop := 10,
    words := some [{ word := "hello", start := 2, stop := 3 }] }

/-- A backend response with a section but no transcript segments. -/
def bdInstr : BackendData :=
  { structure' := some [], segments := [],
    aligned_chords := [{ chord := "G", time := 1 }] }

/-- The section the instrumental branch of the witness runs on. -/
def secInstr : SectionOut :=
  { id := "section-0", name := "Intro", start := 0, stop := 10, type := none }

/-- Segment without word timestamps used by the C7 witness. -/
def segNW : TSegment := { text := "la la", start := 0, stop := 10, words := none }

/-- Two in-range chords used by the C7 witness. -/
def acW2 : List AlignedChord := [{ chord := "C", time := 1 }, { chord := "G", time := 2 }]

/-- A concrete raw line for the C10 witness. -/
def lineW : Line := { chords := ["C", ""], words := ["ab", "cd"] }

/-- Concrete transformed song data for the C10 witness. -/
def sdW : TransformResult :=
  { sections := [{ id := "section-0", name := "Intro", start := 0, stop := 10, type := none }],
    lyrics := [("section-0", [lineW])] }

/-- The adapted section the adapter computes on `sdW`. -/
def secAdapted : AdaptedSection := { section' := "Intro", lines := [adaptLine lineW] }

/-- Every template has squared norm 3 (three pitch classes set to 1). -/
lemma template_norm_three :
    ∀ p ∈ chordTemplates, dotN p.2 p.2 = 3 := by decide

/-- Distinct templates overlap in at most 2 pitch classes: no two rows of the
table denote the same pitch-class set. -/
lemma template_overlap_lt :
    ∀ i : Fin chordTemplates.length, ∀ j : Fin chordTemplates.length,
      i ≠ j →
      dotN (chordTemplates.get i).2 (chordTemplates.get j).2 < 3 := by decide

/-! ### Characterizing the template-matching loop -/

/-- If no score beats the accumulator, the loop leaves it unchanged. -/
lemma bestAux_of_all_le (avg : List ℝ) :
    ∀ (l : List (String × List ℝ)) (acc : Option String × ℝ),
      (∀ p ∈ l, score avg p.2 ≤ acc.2) → bestAux avg acc l = acc := by
  intro l
  induction l with
  | nil => intro acc _; rfl
  | cons p rest ih =>
      intro acc h
      have hp : score avg p.2 ≤ acc.2 := h p (List.mem_cons_self _ _)
      have : ¬ acc.2 < score avg p.2 := not_lt.mpr hp
      simp only [bestAux, if_neg this]
      exact ih acc (fun q hq => h q (List.mem_cons_of_mem _ hq))

/-- Full characterization of the matching loop: either nothing ever beat the
accumulator, or the result is the *earliest* entry attaining the maximal
score (strictly above the initial accumulator score). -/
lemma bestAux_spec (avg : List ℝ) :
    ∀ (l : List (String × List ℝ)) (acc : Option String × ℝ),
      (bestAux avg acc l = acc ∧ ∀ p ∈ l, score avg p.2 ≤ acc.2) ∨
      (∃ k, ∃ hk : k < l.length,
        bestAux avg acc l =
          (some (l.get ⟨k, hk⟩).1, score avg (l.get ⟨k, hk⟩).2) ∧
        acc.2 < score avg (l.get ⟨k, hk⟩).2 ∧
        (∀ j, ∀ hj : j < l.length,
          score avg (l.get ⟨j, hj⟩).2 ≤ score avg (l.get ⟨k, hk⟩).2) ∧
        (∀ j, ∀ hj : j < k,
          score avg (l.get ⟨j, Nat.lt_trans hj hk⟩).2 <
            score avg (l.get ⟨k, hk⟩).2)) := by
  intro l
  induction l with
  | nil => intro acc; left; exact ⟨rfl, by simp⟩
  | cons p rest ih =>
      intro acc
      by_cases hp : acc.2 < score avg p.2
      · -- the head updates the accumulator
        have hstep : bestAux avg acc (p :: rest) =
            bestAux avg (some p.1, score avg p.2) rest := by
          simp only [bestAux, if_pos hp]
        rcases ih (some p.1, score avg p.2) with ⟨heq, hle⟩ | ⟨k, hk, heq, hacc, hmax, hfirst⟩
        · right
          refine ⟨0, Nat.succ_pos _, ?_, hp, ?_, ?_⟩
          · rw [hstep, heq]; rfl
          · intro j hj
            cases j with
            | zero => exact le_refl _
            | succ n =>
                exact hle (rest.get ⟨n, Nat.lt_of_succ_lt_succ hj⟩) (rest.get_mem _ _)
          · intro j hj; exact absurd hj (Nat.not_lt_zero _)
        · right
          refine ⟨k + 1, Nat.succ_lt_succ hk, ?_, ?_, ?_, ?_⟩
          · rw [hstep, heq]; rfl
          · exact lt_trans hp hacc
          · intro j hj
            cases j with
            | zero => exact le_of_lt hacc
            | succ n => exact hmax n (Nat.lt_of_succ_lt_succ hj)
          · intro j hj
            cases j with
            | zero => exact hacc
            | succ n => exact hfirst n (Nat.lt_of_succ_lt_succ hj)
      · -- the head does not update the accumulator
        have hstep : bestAux avg acc (p :: rest) = bestAux avg acc rest := by
          simp only [bestAux, if_neg hp]
        rcases ih acc with ⟨heq, hle⟩ | ⟨k, hk, heq, hacc, hmax, hfirst⟩
        · left
          refine ⟨by rw [hstep, heq], ?_⟩
          intro q hq
          rcases List.mem_cons.mp hq with rfl | hq'
          · exact not_lt.mp hp
          · exact hle q hq'
        · right
          refine ⟨k + 1, Nat.succ_lt_succ hk, ?_, hacc, ?_, ?_⟩
          · rw [hstep, heq]; rfl
          · intro j hj
            cases j with
            | zero => exact le_trans (not_lt.mp hp) (le_of_lt hacc)
            | succ n => exact hmax n (Nat.lt_of_succ_lt_succ hj)
          · intro j hj
            cases j with
            | zero => exact lt_of_le_of_lt (not_lt.mp hp) hacc
            | succ n => exact hfirst n (Nat.lt_of_succ_lt_succ hj)

lemma eps_pos : (0 : ℝ) < eps := by norm_num [eps]

lemma denom_pos : (0 : ℝ) < 3 + eps := by
  have := eps_pos; linarith

/-- The real dot product of two cast integer vectors is the cast of the
integer dot product. -/
lemma dotProd_cast : ∀ a b : List ℕ, dotProd (castVec a) (castVec b) = ((dotN a b : ℕ) : ℝ) := by
  intro a
  induction a with
  | nil => intro b; simp [dotProd, dotN, castVec]
  | cons x xs ih =>
      intro b
      cases b with
      | nil => simp [dotProd, dotN, castVec]
      | cons y ys =>
          have hx : dotProd (castVec (x :: xs)) (castVec (y :: ys)) =
              (x : ℝ) * (y : ℝ) + dotProd (castVec xs) (castVec ys) := by
            simp [dotProd, castVec]
          have hn : dotN (x :: xs) (y :: ys) = x * y + dotN xs ys := by
            simp [dotN]
          rw [hx, hn, ih ys]
          push_cast
          ring

/-- Score between cast templates of squared norm 3: the `Math.sqrt` factors
collapse to the rational `3 + 1e-10` denominator. -/
lemma score_cast (a b : List ℕ) (ha : dotN a a = 3) (hb : dotN b b = 3) :
    score (castVec a) (castVec b) = ((dotN a b : ℕ) : ℝ) / (3 + eps) := by
  unfold score
  rw [dotProd_cast a b, dotProd_cast a a, dotProd_cast b b, ha, hb]
  have h3 : Real.sqrt ((3 : ℕ) : ℝ) * Real.sqrt ((3 : ℕ) : ℝ) = 3 := by
    push_cast
    exact Real.mul_self_sqrt (by norm_num)
  rw [h3]

lemma chordTemplatesR_length : chordTemplatesR.length = chordTemplates.length := by
  simp [chordTemplatesR]

lemma chordTemplatesR_get (j : ℕ) (hj : j < chordTemplatesR.length) :
    chordTemplatesR.get ⟨j, hj⟩ =
      ((chordTemplates.get ⟨j, by simpa [chordTemplatesR] using hj⟩).1,
       castVec (chordTemplates.get ⟨j, by simpa [chordTemplatesR] using hj⟩).2) := by
  simp [chordTemplatesR]

/-- Feeding the matching loop a chroma vector equal to the `i`-th template
selects exactly that template, with score `3 / (3 + 1e-10)`. -/
lemma bestMatch_template (i : Fin chordTemplates.length) :
    bestMatch (castVec (chordTemplates.get i).2) =
      (some (chordTemplates.get i).1, 3 / (3 + eps)) := by
  set a := (chordTemplates.get i).2 with ha_def
  have hnorm_i : dotN a a = 3 := template_norm_three _ (chordTemplates.get_mem _ _)
  have hscore : ∀ j (hj : j < chordTemplatesR.length),
      score (castVec a) (chordTemplatesR.get ⟨j, hj⟩).2 =
        ((dotN a (chordTemplates.get ⟨j, by simpa [chordTemplatesR] using hj⟩).2 : ℕ) : ℝ) /
          (3 + eps) := by
    intro j hj
    rw [chordTemplatesR_get j hj]
    exact score_cast _ _ hnorm_i
      (template_norm_three _ (chordTemplates.get_mem _ _))
  have hiR : (i : ℕ) < chordTemplatesR.length := by
    rw [chordTemplatesR_length]; exact i.isLt
  have hscore_i : score (castVec a) (chordTemplatesR.get ⟨i, hiR⟩).2 = 3 / (3 + eps) := by
    rw [hscore i hiR]
    have hfin : (⟨(i : ℕ), by simpa [chordTemplatesR] using hiR⟩ : Fin chordTemplates.length) =
        i := Fin.ext rfl
    rw [hfin, ← ha_def, hnorm_i]
    norm_num
  have hpos : (0 : ℝ) < 3 / (3 + eps) := by
    apply div_pos (by norm_num) denom_pos
  rcases bestAux_spec (castVec a) chordTemplatesR (none, 0) with
    ⟨_, hle⟩ | ⟨k, hk, heq, _, hmax, _⟩
  · exfalso
    have := hle (chordTemplatesR.get ⟨i, hiR⟩) (chordTemplatesR.get_mem _ _)
    rw [hscore_i] at this
    exact absurd (lt_of_lt_of_le hpos this) (lt_irrefl _)
  · -- identify the chosen index with i
    have hkT : k < chordTemplates.length := by rwa [chordTemplatesR_length] at hk
    have hk_eq : k = (i : ℕ) := by
      by_contra hne
      have hlt : dotN a (chordTemplates.get ⟨k, hkT⟩).2 < 3 := by
        apply template_overlap_lt i ⟨k, hkT⟩
        intro h
        exact hne (congrArg Fin.val h).symm
      have hmax_i := hmax i hiR
      rw [hscore_i, hscore k hk] at hmax_i
      have h3le : (3 : ℝ) ≤
          ((dotN a (chordTemplates.get ⟨k, hkT⟩).2 : ℕ) : ℝ) := by
        have h := mul_le_mul_of_nonneg_right hmax_i (le_of_lt denom_pos)
        rwa [div_mul_cancel₀ _ (ne_of_gt denom_pos),
          div_mul_cancel₀ _ (ne_of_gt denom_pos)] at h
      have : (3 : ℕ) ≤ dotN a (chordTemplates.get ⟨k, hkT⟩).2 := by exact_mod_cast h3le
      omega
    have hget : ∀ h : k < chordTemplates.length,
        chordTemplates.get ⟨k, h⟩ = chordTemplates.get i := by
      intro h
      have : (⟨k, h⟩ : Fin chordTemplates.length) = i := Fin.ext hk_eq
      rw [this]
    unfold bestMatch
    rw [heq, chordTemplatesR_get k hk]
    simp only [hget, ← ha_def]
    rw [score_cast a a hnorm_i hnorm_i, hnorm_i]
    simp only [Prod.mk.injEq]
    norm_num

/-! ### Invariants of the event-accumulation step -/

/-- Whatever gets appended differs from the previous last chord, so the
"no two adjacent identical chords" invariant is preserved. -/
lemma pushChord_chain (chords : List ChordEvent) (best : Option String × ℝ) (t : ℝ)
    (h : List.Chain' (fun a b => a.chord ≠ b.chord) chords) :
    List.Chain' (fun a b => a.chord ≠ b.chord) (pushChord chords best t) := by
  unfold pushChord
  rcases best with ⟨name?, s⟩
  cases name? with
  | none => exact h
  | some name =>
      by_cases hs : (0.4 : ℝ) < s
      · simp only [if_pos hs]
        cases hlast : chords.getLast? with
        | none =>
            rw [List.chain'_append]
            refine ⟨h, List.chain'_singleton _, ?_⟩
            intro x hx
            rw [hlast] at hx
            cases hx
        | some lastChord =>
            by_cases hne : lastChord.chord ≠ name
            · simp only [if_pos hne]
              rw [List.chain'_append]
              refine ⟨h, List.chain'_singleton _, ?_⟩
              intro x hx y hy
              simp only [List.head?_cons, Option.mem_def, Option.some.injEq] at hy
              rw [hlast] at hx
              simp only [Option.mem_def, Option.some.injEq] at hx
              subst hx; subst hy
              exact hne
            · simp only [if_neg hne]
              exact h
      · simp only [if_neg hs]
        exact h

/-- Membership in the result of a push: an event is either old, or it is the
freshly appended event, emitted under a score strictly above the threshold
and carrying the rounded score as its confidence. -/
lemma pushChord_mem (chords : List ChordEvent) (best : Option String × ℝ) (t : ℝ)
    (e : ChordEvent) (he : e ∈ pushChord chords best t) :
    e ∈ chords ∨ (0.4 < best.2 ∧ e.confidence = jround (best.2 * 100) / 100) := by
  unfold pushChord at he
  rcases best with ⟨name?, s⟩
  cases name? with
  | none => exact Or.inl he
  | some name =>
      by_cases hs : (0.4 : ℝ) < s
      · simp only [if_pos hs] at he
        cases hlast : chords.getLast? with
        | none =>
            rw [hlast] at he
            rcases List.mem_append.mp he with h | h
            · exact Or.inl h
            · simp only [List.mem_singleton] at h
              subst h
              exact Or.inr ⟨hs, rfl⟩
        | some lastChord =>
            rw [hlast] at he
            by_cases hne : lastChord.chord ≠ name
            · simp only [if_pos hne] at he
              rcases List.mem_append.mp he with h | h
              · exact Or.inl h
              · simp only [List.mem_singleton] at h
                subst h
                exact Or.inr ⟨hs, rfl⟩
            · simp only [if_neg hne] at he
              exact Or.inl he
      · simp only [if_neg hs] at he
        exact Or.inl he

/-- A fold preserves any invariant preserved by its step function. -/
lemma foldl_preserve {α β : Type} (P : α → Prop) (f : α → β → α)
    (hf : ∀ a b, P a → P (f a b)) :
    ∀ (l : List β) (a : α), P a → P (l.foldl f a) := by
  intro l
  induction l with
  | nil => intro a ha; exact ha
  | cons b bs ih => intro a ha; exact ih _ (hf a b ha)

lemma filter_map_succ (p : ℕ → Bool) :
    ∀ l : List ℕ, (l.map Nat.succ).filter p =
      (l.filter (fun x => p (x + 1))).map Nat.succ := by
  intro l
  induction l with
  | nil => rfl
  | cons x xs ih =>
      by_cases h : p (x + 1)
      · simp only [List.map_cons, List.filter_cons]
        rw [if_pos (by simpa using h), if_pos (by simpa using h), ih]
        rfl
      · simp only [List.map_cons, List.filter_cons]
        rw [if_neg (by simpa using h), if_neg (by simpa using h), ih]

set_option maxRecDepth 4000 in
/-- Closed form of the adapter loop: the emitted chords are the truthy
entries in word order, and each emitted position is the length of the text
accumulated so far plus the start offset of the corresponding word. -/
lemma adaptGo_spec :
    ∀ (ws chords : List String) (idx : ℕ) (cur : String)
      (cs : List String) (ps : List ℕ),
      (adaptGo chords idx cur cs ps ws).2.1 =
        cs ++ ((List.range ws.length).filter
          (fun k => chords.getD (idx + k) "" ≠ "")).map
            (fun k => chords.getD (idx + k) "") ∧
      (adaptGo chords idx cur cs ps ws).2.2 =
        ps ++ ((List.range ws.length).filter
          (fun k => chords.getD (idx + k) "" ≠ "")).map
            (fun k => cur.length + wordStart ws k) := by
  intro ws
  induction ws with
  | nil => intro chords idx cur cs ps; simp [adaptGo]
  | cons w rest ih =>
      intro chords idx cur cs ps
      have hshift : ∀ x, idx + 1 + x = idx + (x + 1) := by omega
      have hsp : (" " : String).length = 1 := rfl
      have hcurlen : (cur ++ w ++ " ").length = cur.length + (w.length + 1) := by
        simp only [String.length_append, hsp]
        omega
      have hws : ∀ k, wordStart (w :: rest) (k + 1) = (w.length + 1) + wordStart rest k := by
        intro k
        simp [wordStart, List.take_succ_cons]
      have hws0 : wordStart (w :: rest) 0 = 0 := by simp [wordStart]
      by_cases h : chords.getD idx "" ≠ ""
      · have hstep : adaptGo chords idx cur cs ps (w :: rest) =
            adaptGo chords (idx + 1) (cur ++ w ++ " ") (cs ++ [chords.getD idx ""])
              (ps ++ [cur.length]) rest := by
          simp only [adaptGo, if_pos h]
        rcases ih chords (idx + 1) (cur ++ w ++ " ") (cs ++ [chords.getD idx ""])
          (ps ++ [cur.length]) with ⟨ih1, ih2⟩
        constructor
        · rw [hstep, ih1]
          rw [List.length_cons, List.range_succ_eq_map, List.filter_cons]
          rw [if_pos (by simpa using h)]
          rw [filter_map_succ, List.map_cons, List.map_map]
          simp only [Function.comp_def, Nat.succ_eq_add_one, hshift, Nat.add_zero,
            List.append_assoc, List.singleton_append]
        · rw [hstep, ih2]
          rw [List.length_cons, List.range_succ_eq_map, List.filter_cons]
          rw [if_pos (by simpa using h)]
          rw [filter_map_succ, List.map_cons, List.map_map]
          simp only [Function.comp_def, Nat.succ_eq_add_one, hshift, Nat.add_zero,
            hws0, hws, hcurlen, Nat.add_assoc, List.append_assoc,
            List.singleton_append]
      · have hstep : adaptGo chords idx cur cs ps (w :: rest) =
            adaptGo chords (idx + 1) (cur ++ w ++ " ") cs ps rest := by
          simp only [adaptGo, if_neg h]
        rcases ih chords (idx + 1) (cur ++ w ++ " ") cs ps with ⟨ih1, ih2⟩
        constructor
        · rw [hstep, ih1]
          rw [List.length_cons, List.range_succ_eq_map, List.filter_cons]
          rw [if_neg (by simpa using h)]
          rw [filter_map_succ, List.map_map]
          simp only [Function.comp_def, Nat.succ_eq_add_one, hshift]
        · rw [hstep, ih2]
          rw [List.length_cons, List.range_succ_eq_map, List.filter_cons]
          rw [if_neg (by simpa using h)]
          rw [filter_map_succ, List.map_map]
          simp only [Function.comp_def, Nat.succ_eq_add_one, hshift, hws,
            hcurlen, Nat.add_assoc]

/-- The offset of word `i` is the total length of the preceding words plus
one separating space for each of them. -/
lemma wordStart_eq_sum_add_count (ws : List String) (i : ℕ) :
    wordStart ws i = ((ws.take i).map String.length).sum + (ws.take i).length := by
  have haux : ∀ l : List String,
      (l.map (fun w => w.length + 1)).sum = (l.map String.length).sum + l.length := by
    intro l
    induction l with
    | nil => simp
    | cons x xs ih => simp [ih]; omega
  exact haux (ws.take i)

lemma wordStart_succ_lt (ws : List String) (k : ℕ) (h : k < ws.length) :
    wordStart ws k < wordStart ws (k + 1) := by
  have h1 : wordStart ws (k + 1) = wordStart ws k + (ws[k].length + 1) := by
    unfold wordStart
    rw [List.take_succ, List.getElem?_eq_getElem h, Option.toList_some,
      List.map_append, List.sum_append, List.map_singleton, List.sum_singleton]
  omega

lemma wordStart_lt_of_lt (ws : List String) :
    ∀ a b, a < b → b ≤ ws.length → wordStart ws a < wordStart ws b := by
  intro a b
  induction b with
  | zero => intro h _; exact absurd h (Nat.not_lt_zero a)
  | succ n ihb =>
      intro hab hble
      rcases Nat.lt_succ_iff_lt_or_eq.mp hab with h | h
      · exact lt_trans (ihb h (by omega)) (wordStart_succ_lt ws n (by omega))
      · subst h; exact wordStart_succ_lt ws a (by omega)

lemma addVec_replicate_zero (c : List ℝ) (n : ℕ) (h : c.length = n) :
    addVec (List.replicate n 0) c = c := by
  subst h
  unfold addVec
  have hz : List.zipWith (· + ·) (List.replicate c.length (0 : ℝ)) c = c := by
    induction c with
    | nil => rfl
    | cons x xs ih =>
        simp only [List.length_cons, List.replicate_succ, List.zipWith_cons_cons,
          zero_add, ih]
  rw [hz]
  rw [show (List.replicate c.length (0 : ℝ)).drop c.length = [] from by simp]
  exact List.append_nil c

lemma divVec_one (v : List ℝ) : divVec v 1 = v := by
  unfold divVec
  simp

lemma dotProd_zero_left : ∀ (n : ℕ) (l : List ℝ), dotProd (List.replicate n 0) l = 0 := by
  intro n
  induction n with
  | zero => intro l; simp [dotProd]
  | succ m ih =>
      intro l
      cases l with
      | nil => simp [dotProd]
      | cons x xs =>
          have := ih xs
          simp only [List.replicate_succ, dotProd, List.zipWith_cons_cons,
            List.sum_cons, zero_mul, zero_add] at this ⊢
          exact this

lemma maxEntry_zeroVec : maxEntry zeroVec = 0 := by
  norm_num [zeroVec, maxEntry, List.replicate, max_self]

lemma normalizeVec_zeroVec : normalizeVec zeroVec = zeroVec := by
  unfold normalizeVec
  rw [maxEntry_zeroVec]
  simp

lemma maxEntry_castC : maxEntry (castVec tplC) = 1 := by
  norm_num [castVec, tplC, maxEntry, List.foldl, max_def]

lemma normalizeVec_castC : normalizeVec (castVec tplC) = castVec tplC := by
  unfold normalizeVec
  rw [maxEntry_castC]
  simp

lemma windowAvg_const (v : List ℝ) (hv : v.length = 12) (segment : List ℝ)
    (hs : segment.length = 4098) :
    windowAvg (fun _ => some v) segment = some (normalizeVec v) := by
  unfold windowAvg
  rw [hs]
  have hls : loopStarts 4098 4098 frameSize hopSize 0 = [0] := by decide
  rw [hls]
  simp only [List.filterMap_cons, List.filterMap_nil]
  have hsum : sumVecs [v] = v := by
    unfold sumVecs
    simp only [List.foldl_cons, List.foldl_nil]
    exact addVec_replicate_zero v 12 hv
  simp only [List.length_cons, List.length_nil]
  rw [if_neg (by omega)]
  rw [hsum, divVec_one]

lemma bestMatch_zeroVec : bestMatch zeroVec = (none, 0) := by
  unfold bestMatch
  apply bestAux_of_all_le
  intro p _
  have : score zeroVec p.2 = 0 := by
    unfold score
    rw [show dotProd zeroVec p.2 = 0 from dotProd_zero_left 12 p.2]
    exact zero_div _
  rw [this]

/-- A window whose best score does not clear the threshold appends nothing. -/
lemma pushChord_le (chords : List ChordEvent) (best : Option String × ℝ) (t : ℝ)
    (h : best.2 ≤ 0.4) : pushChord chords best t = chords := by
  unfold pushChord
  rcases best with ⟨name?, s⟩
  cases name? with
  | none => rfl
  | some name => simp only [if_neg (not_lt.mpr h)]

lemma thresh_lt : (0.4 : ℝ) < 3 / (3 + eps) := by
  rw [eps]
  norm_num

lemma jround_zero : jround 0 = 0 := by
  unfold jround
  rw [show ((0 : ℝ) + 1 / 2) = 1 / 2 from by norm_num]
  rw [show ⌊(1 / 2 : ℝ)⌋ = 0 from by
    rw [Int.floor_eq_iff] <;> norm_num]
  norm_num

lemma conf_one : jround (3 / (3 + eps) * 100) / 100 = 1 := by
  unfold jround
  rw [show ⌊(3 / (3 + eps) * 100 + 1 / 2 : ℝ)⌋ = 100 from by
    rw [Int.floor_eq_iff, eps] <;> norm_num]
  norm_num

/-- Full concrete run of the recognizer: one window of pure C-major chroma
yields exactly one event `{chord := "C", time := 0, confidence := 1}`. -/
lemma analyzeChords_concreteC :
    analyzeChords extractC audioC 2049 =
      [{ chord := "C", time := 0, confidence := 1 }] := by
  have h1 : analyzeChords extractC audioC 2049 =
      (loopStarts audioC.length audioC.length (2 * 2049) (2 * 2049) 0).foldl
        (fun chords i =>
          match windowAvg extractC ((audioC.drop i).take (2 * 2049)) with
          | none => chords
          | some avg =>
              pushChord chords (bestMatch avg) ((i : ℝ) / ((2049 : ℕ) : ℝ)))
        [] := rfl
  rw [h1]
  have hlen : audioC.length = 4099 := by rw [audioC, List.length_replicate]
  rw [hlen]
  have hls : loopStarts 4099 4099 (2 * 2049) (2 * 2049) 0 = [0] := by decide
  rw [hls]
  simp only [List.foldl_cons, List.foldl_nil]
  have hseg : ((audioC.drop 0).take (2 * 2049)).length = 4098 := by
    rw [audioC, List.drop_zero, List.take_replicate, List.length_replicate]
    norm_num
  have hwa : windowAvg extractC ((audioC.drop 0).take (2 * 2049)) =
      some (castVec tplC) := by
    have hE : extractC = (fun _ => some (castVec tplC)) := rfl
    rw [hE, windowAvg_const (castVec tplC) (by simp [castVec, tplC]) _ hseg,
      normalizeVec_castC]
  rw [hwa]
  have hbm : bestMatch (castVec tplC) = (some "C", 3 / (3 + eps)) := by
    have h0 : (0 : ℕ) < chordTemplates.length := by norm_num [chordTemplates]
    exact bestMatch_template ⟨0, h0⟩
  show pushChord [] (bestMatch (castVec tplC)) (((0 : ℕ) : ℝ) / ((2049 : ℕ) : ℝ)) = _
  rw [hbm]
  unfold pushChord
  simp only [if_pos thresh_lt]
  have ht : jround (((0 : ℕ) : ℝ) / ((2049 : ℕ) : ℝ) * 10) / 10 = 0 := by
    rw [show (((0 : ℕ) : ℝ) / ((2049 : ℕ) : ℝ) * 10) = 0 from by norm_num]
    rw [jround_zero]
    norm_num
  rw [show ([] : List ChordEvent).getLast? = none from rfl]
  rw [ht, conf_one]
  rfl

lemma audioC_window_len : ((audioC.drop 0).take (2 * 2049)).length = 4098 := by
  rw [audioC, List.drop_zero, List.take_replicate, List.length_replicate]
  norm_num

lemma audioC_starts :
    loopStarts audioC.length audioC.length (2 * 2049) (2 * 2049) 0 = [0] := by
  rw [show audioC.length = 4099 from by rw [audioC, List.length_replicate]]
  decide

lemma windowAvg_zero :
    windowAvg extractZero ((audioC.drop 0).take (2 * 2049)) = some zeroVec := by
  have hE : extractZero = (fun _ => some zeroVec) := rfl
  rw [hE, windowAvg_const zeroVec (by rw [zeroVec, List.length_replicate]) _
    audioC_window_len, normalizeVec_zeroVec]

/-- If no window's best score clears the threshold, the recognizer emits
nothing. -/
lemma analyzeChords_empty_of_low (extract : List ℝ → Option (List ℝ))
    (audioData : List ℝ) (sampleRate : ℕ)
    (h : ∀ i ∈ loopStarts audioData.length audioData.length
        (2 * sampleRate) (2 * sampleRate) 0,
      ∀ avg, windowAvg extract ((audioData.drop i).take (2 * sampleRate)) = some avg →
        (bestMatch avg).2 ≤ 0.4) :
    analyzeChords extract audioData sampleRate = [] := by
  have h1 : analyzeChords extract audioData sampleRate =
      (loopStarts audioData.length audioData.length (2 * sampleRate) (2 * sampleRate) 0).foldl
        (fun chords i =>
          match windowAvg extract ((audioData.drop i).take (2 * sampleRate)) with
          | none => chords
          | some avg =>
              pushChord chords (bestMatch avg) ((i : ℝ) / ((sampleRate : ℕ) : ℝ)))
        [] := rfl
  rw [h1]
  have haux : ∀ l : List ℕ,
      (∀ i ∈ l, ∀ avg,
        windowAvg extract ((audioData.drop i).take (2 * sampleRate)) = some avg →
          (bestMatch avg).2 ≤ 0.4) →
      l.foldl
        (fun chords i =>
          match windowAvg extract ((audioData.drop i).take (2 * sampleRate)) with
          | none => chords
          | some avg =>
              pushChord chords (bestMatch avg) ((i : ℝ) / ((sampleRate : ℕ) : ℝ)))
        [] = [] := by
    intro l
    induction l with
    | nil => intro _; rfl
    | cons i rest ih =>
        intro hl
        rw [List.foldl_cons]
        cases hw : windowAvg extract ((audioData.drop i).take (2 * sampleRate)) with
        | none =>
            exact ih (fun j hj => hl j (List.mem_cons_of_mem _ hj))
        | some avg =>
            change List.foldl _
              (pushChord [] (bestMatch avg) ((i : ℝ) / ((sampleRate : ℕ) : ℝ)))
              rest = []
            rw [pushChord_le [] _ _ (hl i (List.mem_cons_self _ _) avg hw)]
            exact ih (fun j hj => hl j (List.mem_cons_of_mem _ hj))
  exact haux _ h

/-- With an empty `aligned_chords` list every chord slot a segment line can
produce is the empty string. -/
lemma segLine_empty_chords (seg : TSegment) :
    ∀ c ∈ (SongUtils.segLine [] seg).chords, c = "" := by
  intro c hc
  rcases seg with ⟨text, s, e, words⟩
  have hcb : chordsBetween [] s e = [] := rfl
  cases words with
  | none =>
      simp only [SongUtils.segLine, hcb] at hc
      simp only [List.length_nil, gt_iff_lt, lt_irrefl, if_false,
        List.mem_singleton] at hc
      exact hc
  | some ws =>
      by_cases hlen : ws.length > 0
      · simp only [SongUtils.segLine, hcb, if_pos hlen] at hc
        rcases List.mem_map.mp hc with ⟨w, _, rfl⟩
        simp [List.find?]
      · simp only [SongUtils.segLine, hcb, if_neg hlen] at hc
        simp only [List.length_nil, gt_iff_lt, lt_irrefl, if_false,
          List.mem_singleton] at hc
        exact hc

/-- With an empty `aligned_chords` list every line a section produces is
chordless. -/
lemma sectionLines_empty_chords (bd : BackendData) (h : bd.aligned_chords = [])
    (sec : SectionOut) :
    ∀ line ∈ SongUtils.sectionLines bd sec, ∀ c ∈ line.chords, c = "" := by
  intro line hline
  unfold SongUtils.sectionLines at hline
  by_cases hseg : (bd.segments.filter (fun seg =>
      (seg.start ≥ sec.start ∧ seg.start < sec.stop) ∨
      (seg.stop > sec.start ∧ seg.stop ≤ sec.stop))).length = 0
  · rw [if_pos hseg] at hline
    rw [h] at hline
    simp only [chordsBetween, List.filter_nil, List.length_nil, gt_iff_lt,
      lt_irrefl, if_false] at hline
    cases hline
  · rw [if_neg hseg] at hline
    rcases List.mem_map.mp hline with ⟨seg, _, rfl⟩
    rw [h]
    exact segLine_empty_chords seg

/-! ### Claim theorems -/

/-- C1: for every audio input (and every behaviour of the external chroma
extractor), the event sequence returned by `analyzeChords` never contains
two adjacent events with the same chord symbol: a candidate is appended only
when the list is empty or the last event's symbol differs. -/
theorem chordEvents_no_adjacent_duplicates
    (extract : List ℝ → Option (List ℝ)) (audioData : List ℝ) (sampleRate : ℕ) :
    List.Chain' (fun a b => a.chord ≠ b.chord)
      (analyzeChords extract audioData sampleRate) := by
  have h1 : analyzeChords extract audioData sampleRate =
      (loopStarts audioData.length audioData.length
        (2 * sampleRate) (2 * sampleRate) 0).foldl
        (fun chords i =>
          match windowAvg extract ((audioData.drop i).take (2 * sampleRate)) with
          | none => chords
          | some avg =>
              pushChord chords (bestMatch avg) ((i : ℝ) / ((sampleRate : ℕ) : ℝ)))
        [] := rfl
  rw [h1]
  have hstep : ∀ (a : List ChordEvent) (b : ℕ),
      List.Chain' (fun x y => x.chord ≠ y.chord) a →
      List.Chain' (fun x y => x.chord ≠ y.chord)
        (match windowAvg extract ((audioData.drop b).take (2 * sampleRate)) with
         | none => a
         | some avg =>
             pushChord a (bestMatch avg) ((b : ℝ) / ((sampleRate : ℕ) : ℝ))) := by
    intro a b hP
    cases hw : windowAvg extract ((audioData.drop b).take (2 * sampleRate)) with
    | none => exact hP
    | some avg => exact pushChord_chain a _ _ hP
  exact foldl_preserve _ _ hstep _ [] List.chain'_nil

/-- C4: `pushChord` appends nothing when the window's best score does not
exceed the 0.4 threshold, and every event `analyzeChords` ever emits carries
as confidence the rounding of a window best-score that strictly exceeds
0.4. -/
theorem confidence_threshold_gate :
    (∀ (chords : List ChordEvent) (best : Option String × ℝ) (t : ℝ),
      best.2 ≤ 0.4 → pushChord chords best t = chords) ∧
    (∀ (extract : List ℝ → Option (List ℝ)) (audioData : List ℝ)
      (sampleRate : ℕ) (e : ChordEvent),
      e ∈ analyzeChords extract audioData sampleRate →
      ∃ avg, 0.4 < (bestMatch avg).2 ∧
        e.confidence = jround ((bestMatch avg).2 * 100) / 100) := by
  constructor
  · exact pushChord_le
  · intro extract audioData sampleRate e he
    have h1 : analyzeChords extract audioData sampleRate =
        (loopStarts audioData.length audioData.length
          (2 * sampleRate) (2 * sampleRate) 0).foldl
          (fun chords i =>
            match windowAvg extract ((audioData.drop i).take (2 * sampleRate)) with
            | none => chords
            | some avg =>
                pushChord chords (bestMatch avg) ((i : ℝ) / ((sampleRate : ℕ) : ℝ)))
          [] := rfl
    rw [h1] at he
    have hstep : ∀ (a : List ChordEvent) (b : ℕ),
        (∀ e' ∈ a, ∃ avg, 0.4 < (bestMatch avg).2 ∧
          e'.confidence = jround ((bestMatch avg).2 * 100) / 100) →
        (∀ e' ∈ (match windowAvg extract ((audioData.drop b).take (2 * sampleRate)) with
           | none => a
           | some avg =>
               pushChord a (bestMatch avg) ((b : ℝ) / ((sampleRate : ℕ) : ℝ))),
          ∃ avg, 0.4 < (bestMatch avg).2 ∧
            e'.confidence = jround ((bestMatch avg).2 * 100) / 100) := by
      intro a b hP e'
      cases hw : windowAvg extract ((audioData.drop b).take (2 * sampleRate)) with
      | none => exact hP e'
      | some avg =>
          intro he'
          rcases pushChord_mem a _ _ e' he' with hold | ⟨hgt, hconf⟩
          · exact hP e' hold
          · exact ⟨avg, hgt, hconf⟩
    exact foldl_preserve _ _ hstep _ []
      (fun e' he' => absurd he' (List.not_mem_nil e')) e he

/-- C4 witness: a sub-threshold window appends nothing, and the concrete
C-major run's emitted confidence `1` is the rounding of a window score above
the threshold. -/
theorem confidence_threshold_gate_witness :
    pushChord [] (none, (0 : ℝ)) 0 = [] ∧
    (∃ avg, 0.4 < (bestMatch avg).2 ∧
      (1 : ℝ) = jround ((bestMatch avg).2 * 100) / 100) := by
  constructor
  · exact confidence_threshold_gate.1 [] (none, 0) 0 (by norm_num)
  · exact confidence_threshold_gate.2 extractC audioC 2049
      { chord := "C", time := 0, confidence := 1 }
      (by rw [analyzeChords_concreteC]; exact List.mem_singleton.mpr rfl)

/-- C5: for every averaged, normalized chroma vector with some positive
template score, the matching loop returns the earliest template attaining
the maximal score ("ties broken by template insertion order"), with the
returned confidence equal to that score. -/
theorem best_match_first_argmax (avg : List ℝ)
    (h : ∃ p ∈ chordTemplatesR, 0 < score avg p.2) :
    ∃ k, ∃ hk : k < chordTemplatesR.length,
      bestMatch avg = (some (chordTemplatesR.get ⟨k, hk⟩).1,
        score avg (chordTemplatesR.get ⟨k, hk⟩).2) ∧
      (∀ j, ∀ hj : j < chordTemplatesR.length,
        score avg (chordTemplatesR.get ⟨j, hj⟩).2 ≤
          score avg (chordTemplatesR.get ⟨k, hk⟩).2) ∧
      (∀ j, ∀ hj : j < k,
        score avg (chordTemplatesR.get ⟨j, Nat.lt_trans hj hk⟩).2 <
          score avg (chordTemplatesR.get ⟨k, hk⟩).2) := by
  rcases bestAux_spec avg chordTemplatesR (none, 0) with
    ⟨_, hle⟩ | ⟨k, hk, heq, _, hmax, hfirst⟩
  · exfalso
    rcases h with ⟨p, hp, hpos⟩
    exact absurd (lt_of_lt_of_le hpos (hle p hp)) (lt_irrefl _)
  · exact ⟨k, hk, heq, hmax, hfirst⟩

/-- C5 witness: instantiated at the pure C-major chroma vector. -/
theorem best_match_first_argmax_witness :
    ∃ k, ∃ hk : k < chordTemplatesR.length,
      bestMatch (castVec tplC) = (some (chordTemplatesR.get ⟨k, hk⟩).1,
        score (castVec tplC) (chordTemplatesR.get ⟨k, hk⟩).2) ∧
      (∀ j, ∀ hj : j < chordTemplatesR.length,
        score (castVec tplC) (chordTemplatesR.get ⟨j, hj⟩).2 ≤
          score (castVec tplC) (chordTemplatesR.get ⟨k, hk⟩).2) ∧
      (∀ j, ∀ hj : j < k,
        score (castVec tplC) (chordTemplatesR.get ⟨j, Nat.lt_trans hj hk⟩).2 <
          score (castVec tplC) (chordTemplatesR.get ⟨k, hk⟩).2) := by
  apply best_match_first_argmax
  refine ⟨("C", castVec tplC), ?_, ?_⟩
  · show ("C", castVec tplC) ∈ chordTemplatesR
    exact List.mem_cons_self _ _
  · have h33 : dotN tplC tplC = 3 := by decide
    rw [show score (castVec tplC) (castVec tplC) =
        ((dotN tplC tplC : ℕ) : ℝ) / (3 + eps) from score_cast tplC tplC h33 h33]
    rw [h33]
    exact div_pos (by norm_num) denom_pos

/-- C3: feeding the matching stage a chroma vector equal to any template of
the table yields exactly that template's chord symbol as best match, with a
raw score of `3 / (3 + 1e-10)` — approximately 1.0, and exactly 1.00 after
the recognizer's two-decimal rounding. -/
theorem template_roundtrip (p : String × List ℕ) (hp : p ∈ chordTemplates) :
    bestMatch (castVec p.2) = (some p.1, 3 / (3 + eps)) ∧
    jround (3 / (3 + eps) * 100) / 100 = 1 ∧
    |3 / (3 + eps) - 1| < (1 : ℝ) / 10 ^ 9 := by
  refine ⟨?_, conf_one, ?_⟩
  · rcases List.mem_iff_get.mp hp with ⟨i, hi⟩
    rw [← hi]
    exact bestMatch_template i
  · rw [abs_lt, eps]
    constructor
    · norm_num
    · norm_num

/-- C3 witness: the C-major template round-trips to the symbol `"C"`. -/
theorem template_roundtrip_witness :
    bestMatch (castVec tplC) = (some "C", 3 / (3 + eps)) ∧
    jround (3 / (3 + eps) * 100) / 100 = 1 ∧
    |3 / (3 + eps) - 1| < (1 : ℝ) / 10 ^ 9 :=
  template_roundtrip ("C", tplC) (List.mem_cons_self _ _)

/-- C6: when no template clears the threshold in any analysis window the
recognizer returns `[]` (a value, not an error), and the downstream
transformation of a chord-free response is a non-null result whose sections
are all chordless (every chord slot is the empty string). -/
theorem no_chords_graceful :
    (∀ (extract : List ℝ → Option (List ℝ)) (audioData : List ℝ) (sampleRate : ℕ),
      (∀ i ∈ loopStarts audioData.length audioData.length
          (2 * sampleRate) (2 * sampleRate) 0,
        ∀ avg, windowAvg extract ((audioData.drop i).take (2 * sampleRate)) = some avg →
          (bestMatch avg).2 ≤ 0.4) →
      analyzeChords extract audioData sampleRate = []) ∧
    (∀ (bd : BackendData) (sl : List BSection),
      bd.structure' = some sl → bd.aligned_chords = [] →
      ∃ out, SongUtils.transformSongData (some bd) = some out ∧
        ∀ pr ∈ out.lyrics, ∀ line ∈ pr.2, ∀ c ∈ line.chords, c = "") := by
  constructor
  · exact analyzeChords_empty_of_low
  · intro bd sl hsl hac
    rcases bd with ⟨st, segs, acs⟩
    have hst : st = some sl := hsl
    have hacs : acs = [] := hac
    subst hst
    subst hacs
    refine ⟨_, rfl, ?_⟩
    intro pr hpr line hline c hc
    rcases List.mem_map.mp hpr with ⟨sec, _, rfl⟩
    exact sectionLines_empty_chords ⟨some sl, segs, []⟩ rfl sec line hline c hc

/-- C6 witness: the silent-chroma run emits `[]`, and the concrete chordless
backend response formats without error into all-blank chord slots. -/
theorem no_chords_graceful_witness :
    analyzeChords extractZero audioC 2049 = [] ∧
    (∃ out, SongUtils.transformSongData (some bdEmpty) = some out ∧
      ∀ pr ∈ out.lyrics, ∀ line ∈ pr.2, ∀ c ∈ line.chords, c = "") := by
  constructor
  · apply no_chords_graceful.1
    intro i hi avg hw
    rw [audioC_starts] at hi
    have hi0 : i = 0 := by simpa using hi
    subst hi0
    rw [windowAvg_zero] at hw
    cases hw
    rw [bestMatch_zeroVec]
    norm_num
  · exact no_chords_graceful.2 bdEmpty _ rfl rfl

/-- C9: the pipeline is deterministic — both `analyzeChords` and
`transformSongData` are pure functions of their inputs, so identical audio
samples, sample rate, extractor behaviour and transcript data produce
identical outputs on every run. -/
theorem pipeline_deterministic
    (extract : List ℝ → Option (List ℝ)) (a₁ a₂ : List ℝ) (sr₁ sr₂ : ℕ)
    (d₁ d₂ : Option BackendData)
    (ha : a₁ = a₂) (hsr : sr₁ = sr₂) (hd : d₁ = d₂) :
    analyzeChords extract a₁ sr₁ = analyzeChords extract a₂ sr₂ ∧
    SongUtils.transformSongData d₁ = SongUtils.transformSongData d₂ := by
  subst ha
  subst hsr
  subst hd
  exact ⟨rfl, rfl⟩

/-- C9 witness: instantiated on the concrete C-major run and the concrete
backend response. -/
theorem pipeline_deterministic_witness :
    analyzeChords extractC audioC 2049 = analyzeChords extractC audioC 2049 ∧
    SongUtils.transformSongData (some bdEmpty) =
      SongUtils.transformSongData (some bdEmpty) :=
  pipeline_deterministic extractC audioC audioC 2049 2049
    (some bdEmpty) (some bdEmpty) rfl rfl rfl

/-- C2 counterexample: on `cexBD` the claim requires the chord `C` (onset in
a silent gap) to be attached to the nearest following word `"hello"`, but
the computed output contains no `C` anywhere — the code has no fallback and
simply drops gap chords, leaving the word's chord slot empty. -/
theorem alignment_gap_fallback_counterexample :
    SongUtils.transformSongData (some cexBD) = some cexOut ∧
    ¬ chordAppears cexOut "C" := by
  constructor
  · decide
  · unfold chordAppears
    decide

/-- C2 amended: chord/word attachment is by interval containment only.  For
a segment with word timestamps, word `i`'s chord slot holds the symbol of
the *first* chord in the segment's time range whose onset lies in the word's
`[start, stop)` interval, and is empty when no such chord exists (a gap
chord is attached to no word — there is no nearest-following-word fallback);
a section containing no transcript segments renders its in-range chords on a
single instrumental line attached to the section itself. -/
theorem alignment_containment_only :
    (∀ (ac : List AlignedChord) (seg : TSegment) (ws : List TWord),
      seg.words = some ws → 0 < ws.length →
      ∀ i, ∀ hi : i < ws.length,
        (∃ c, (chordsBetween ac seg.start seg.stop).find?
            (fun ch => (ws.get ⟨i, hi⟩).start ≤ ch.time ∧
              ch.time < (ws.get ⟨i, hi⟩).stop) = some c ∧
          (SongUtils.segLine ac seg).chords.get? i = some c.chord ∧
          (ws.get ⟨i, hi⟩).start ≤ c.time ∧ c.time < (ws.get ⟨i, hi⟩).stop) ∨
        ((∀ c ∈ chordsBetween ac seg.start seg.stop,
            ¬((ws.get ⟨i, hi⟩).start ≤ c.time ∧ c.time < (ws.get ⟨i, hi⟩).stop)) ∧
          (SongUtils.segLine ac seg).chords.get? i = some "")) ∧
    (∀ (bd : BackendData) (sec : SectionOut),
      bd.segments.filter (fun seg =>
        (seg.start ≥ sec.start ∧ seg.start < sec.stop) ∨
        (seg.stop > sec.start ∧ seg.stop ≤ sec.stop)) = [] →
      SongUtils.sectionLines bd sec =
        if (chordsBetween bd.aligned_chords sec.start sec.stop).length > 0 then
          [{ chords := (chordsBetween bd.aligned_chords sec.start sec.stop).map
               (fun c => c.chord),
             words := (chordsBetween bd.aligned_chords sec.start sec.stop).map
               (fun _ => "") }]
        else []) := by
  constructor
  · intro ac seg ws hws hpos i hi
    have hchords : (SongUtils.segLine ac seg).chords =
        ws.map (fun w =>
          match (chordsBetween ac seg.start seg.stop).find?
              (fun c => w.start ≤ c.time ∧ c.time < w.stop) with
          | some c => c.chord
          | none => "") := by
      rcases seg with ⟨text, s, e, words⟩
      have hw' : words = some ws := hws
      subst hw'
      simp only [SongUtils.segLine, if_pos hpos]
    rw [hchords, List.get?_map, List.get?_eq_get hi]
    simp only [Option.map_some']
    cases hfind : (chordsBetween ac seg.start seg.stop).find?
        (fun c => (ws.get ⟨i, hi⟩).start ≤ c.time ∧ c.time < (ws.get ⟨i, hi⟩).stop) with
    | some c =>
        left
        have hprop := List.find?_some hfind
        have hprop' : (ws.get ⟨i, hi⟩).start ≤ c.time ∧
            c.time < (ws.get ⟨i, hi⟩).stop := by simpa using hprop
        exact ⟨c, rfl, rfl, hprop'.1, hprop'.2⟩
    | none =>
        right
        refine ⟨?_, rfl⟩
        intro c hc
        have := List.find?_eq_none.mp hfind c hc
        simpa using this
  · intro bd sec hfilter
    have h1 : SongUtils.sectionLines bd sec =
        if (bd.segments.filter (fun seg =>
            (seg.start ≥ sec.start ∧ seg.start < sec.stop) ∨
            (seg.stop > sec.start ∧ seg.stop ≤ sec.stop))).length = 0 then
          (if (chordsBetween bd.aligned_chords sec.start sec.stop).length > 0 then
            [{ chords := (chordsBetween bd.aligned_chords sec.start sec.stop).map
                 (fun c => c.chord),
               words := (chordsBetween bd.aligned_chords sec.start sec.stop).map
                 (fun _ => "") }]
          else [])
        else (bd.segments.filter (fun seg =>
            (seg.start ≥ sec.start ∧ seg.start < sec.stop) ∨
            (seg.stop > sec.start ∧ seg.stop ≤ sec.stop))).map
          (SongUtils.segLine bd.aligned_chords) := rfl
    rw [h1, hfilter]
    rfl

/-- C2 amended witness: the in-interval chord is attached to its word, and a
segment-free section gets the instrumental line. -/
theorem alignment_containment_only_witness :
    (SongUtils.segLine acW segW).chords.get? 0 = some "C" ∧
    SongUtils.sectionLines bdInstr secInstr =
      [{ chords := ["G"], words := [""] }] := by
  constructor
  · have h := alignment_containment_only.1 acW segW
      [{ word := "hello", start := 2, stop := 3 }] rfl (by norm_num) 0 (by norm_num)
    rcases h with ⟨c, hfind, hslot, _, _⟩ | ⟨hnone, _⟩
    · have hmem : c ∈ chordsBetween acW segW.start segW.stop :=
        List.mem_of_find?_eq_some hfind
      have hmem' : c ∈ acW := List.mem_of_mem_filter hmem
      have hc : c = { chord := "C", time := 2 } := by
        simpa [acW] using hmem'
      rw [hc] at hslot
      exact hslot
    · exfalso
      exact hnone { chord := "C", time := 2 } (by decide) (by decide)
  · rw [alignment_containment_only.2 bdInstr secInstr rfl]
    decide

/-- C7: when a segment's `words` array is null/omitted, alignment degrades
to per-segment granularity: the produced line's first slot carries the
space-joined text of *all* chords whose time falls in the segment's
`[start, end)` range, every later chord slot is empty, and the chord and
word arrays stay aligned (equal length). -/
theorem segment_words_fallback_first_word (ac : List AlignedChord)
    (seg : TSegment) (h : seg.words = none) :
    (Part007.segLine ac seg).chords.head? =
      some (if (chordsBetween ac seg.start seg.stop).length > 0 then
        String.intercalate " "
          ((chordsBetween ac seg.start seg.stop).map (fun c => c.chord))
      else "") ∧
    (∀ s ∈ (Part007.segLine ac seg).chords.tail, s = "") ∧
    (Part007.segLine ac seg).chords.length = (Part007.segLine ac seg).words.length := by
  rcases seg with ⟨text, st, e, words⟩
  have hw' : words = none := h
  subst hw'
  by_cases htok : ((jsSplitWs text.trim).filter (fun w => w ≠ "")).length = 0
  · have hline : Part007.segLine ac ⟨text, st, e, none⟩ =
        { chords := [if (chordsBetween ac st e).length > 0 then
            String.intercalate " " ((chordsBetween ac st e).map (fun c => c.chord))
          else ""],
          words := [text.trim] } := by
      simp only [Part007.segLine, if_pos htok]
    rw [hline]
    refine ⟨rfl, ?_, rfl⟩
    intro s hs
    cases hs
  · have hline : Part007.segLine ac ⟨text, st, e, none⟩ =
        { chords := ((jsSplitWs text.trim).filter (fun w => w ≠ "")).mapIdx
            (fun i _ => if i = 0 then
              (if (chordsBetween ac st e).length > 0 then
                String.intercalate " " ((chordsBetween ac st e).map (fun c => c.chord))
              else "") else ""),
          words := (jsSplitWs text.trim).filter (fun w => w ≠ "") } := by
      simp only [Part007.segLine, if_neg htok]
    rw [hline]
    rcases htoks : (jsSplitWs text.trim).filter (fun w => w ≠ "") with _ | ⟨t, ts⟩
    · exact absurd (by rw [htoks]; rfl) htok
    · rw [List.mapIdx_cons]
      refine ⟨rfl, ?_, ?_⟩
      · intro s hs
        simp only [List.tail_cons] at hs
        rcases List.mem_iff_get.mp hs with ⟨⟨n, hn⟩, hget⟩
        have hn' : n < ts.length := by
          simpa using hn
        rw [List.get_mapIdx ts _ n hn'] at hget
        simpa using hget.symm
      · simp

/-- C7 witness: on a two-word segment without timestamps both chords are
joined onto the first slot and the second slot is empty. -/
theorem segment_words_fallback_first_word_witness :
    (Part007.segLine acW2 segNW).chords.head? =
      some (if (chordsBetween acW2 segNW.start segNW.stop).length > 0 then
        String.intercalate " "
          ((chordsBetween acW2 segNW.start segNW.stop).map (fun c => c.chord))
      else "") ∧
    (∀ s ∈ (Part007.segLine acW2 segNW).chords.tail, s = "") ∧
    (Part007.segLine acW2 segNW).chords.length =
      (Part007.segLine acW2 segNW).words.length :=
  segment_words_fallback_first_word acW2 segNW rfl

/-- C8: in the display adapter, the emitted chords are exactly the truthy
chord entries in word order, and the character offset recorded for each is
the start offset of its aligned word — the sum of the rendered lengths of
all preceding words plus one separating space per preceding word. -/
theorem chord_offset_sum_of_word_lengths (line : Line) :
    (adaptLine line).chords = (chordedIdx line).map (fun i => line.chords.getD i "") ∧
    (adaptLine line).positions = (chordedIdx line).map (wordStart line.words) ∧
    ∀ i, wordStart line.words i =
      ((line.words.take i).map String.length).sum + (line.words.take i).length := by
  have h := adaptGo_spec line.words line.chords 0 "" [] []
  refine ⟨?_, ?_, fun i => wordStart_eq_sum_add_count line.words i⟩
  · rw [show (adaptLine line).chords =
        (adaptGo line.chords 0 "" [] [] line.words).2.1 from rfl, h.1]
    simp [chordedIdx]
  · rw [show (adaptLine line).positions =
        (adaptGo line.chords 0 "" [] [] line.words).2.2 from rfl, h.2]
    simp [chordedIdx, wordStart]

/-- C10: every line produced by the display adapter has chord and position
arrays of equal length, and its positions are strictly increasing — a chord
entry is pushed exactly when its position entry is pushed, and each position
is the running text length, which grows by at least one character per
word. -/
theorem adapted_line_invariants (songData : Option TransformResult)
    (sec : AdaptedSection) (hsec : sec ∈ useAdaptedData songData)
    (al : AdaptedLine) (hal : al ∈ sec.lines) :
    al.chords.length = al.positions.length ∧
    List.Chain' (· < ·) al.positions := by
  rcases songData with _ | sd
  · cases hsec
  · simp only [useAdaptedData] at hsec
    rcases List.mem_map.mp hsec with ⟨secIn, _, rfl⟩
    rcases List.mem_map.mp hal with ⟨line, _, rfl⟩
    have h := adaptGo_spec line.words line.chords 0 "" [] []
    constructor
    · rw [show (adaptLine line).chords =
          (adaptGo line.chords 0 "" [] [] line.words).2.1 from rfl, h.1,
        show (adaptLine line).positions =
          (adaptGo line.chords 0 "" [] [] line.words).2.2 from rfl, h.2]
      simp
    · rw [show (adaptLine line).positions =
          (adaptGo line.chords 0 "" [] [] line.words).2.2 from rfl, h.2]
      rw [List.nil_append, List.chain'_iff_pairwise, List.pairwise_map]
      refine List.Pairwise.imp_of_mem ?_
        ((List.pairwise_lt_range line.words.length).filter _)
      intro a b ha hb hab
      have hb' : b < line.words.length :=
        List.mem_range.mp (List.mem_of_mem_filter hb)
      have hlt := wordStart_lt_of_lt line.words a b hab (le_of_lt hb')
      have h0 : ("" : String).length = 0 := rfl
      omega

/-- C10 witness: instantiated on the concrete adapter run. -/
theorem adapted_line_invariants_witness :
    (adaptLine lineW).chords.length = (adaptLine lineW).positions.length ∧
    List.Chain' (· < ·) (adaptLine lineW).positions :=
  adapted_line_invariants (some sdW) secAdapted
    (by rw [show useAdaptedData (some sdW) = [secAdapted] from rfl]
        exact List.mem_singleton.mpr rfl)
    (adaptLine lineW) (List.mem_singleton.mpr rfl)
